import Mathlib

/-!
Verification of the tame-index registry-index library core: the binary cache
codec (src/cache.rs), the crate-name path algebra (src/lib.rs), the URL to
local-directory mapping (src/utils.rs), the sparse-index request/response
logic (src/index/sparse.rs, src/index/local.rs) and the git cache validity
check (src/index/git_remote.rs).

Bytes are modelled as natural numbers (values below 256); Rust byte slices
and strings become lists of naturals, strings being their UTF-8 bytes.
External collaborators (serde_json serialization, semver rendering) are kept
abstract as function parameters together with the contracts the code relies
on; everything belonging to the repository itself is translated structurally
from the source.
-/

namespace TameIndex

/-- Bytes of an ASCII string literal (every fixture and constant used below is
ASCII, where UTF-8 bytes coincide with code points). -/
def S (s : String) : List Nat := s.toList.map Char.toNat

/-- Models the split iterator of src/cache.rs (fn split): the sequence of
items the iterator yields when splitting `haystack` on `needle`.  The
iterator stops once the remaining haystack is empty, so a trailing needle
does not produce a trailing empty item, and an empty haystack yields no
items at all. -/
def splitGo (needle : Nat) (cur : List Nat) : List Nat → List (List Nat)
  | [] => [cur]
  | b :: rest =>
    if b = needle then
      match rest with
      | [] => [cur]
      | _ :: _ => cur :: splitGo needle [] rest
    else splitGo needle (cur ++ [b]) rest

/-- All items yielded by `split(haystack, needle)` from src/cache.rs. -/
def splitB (needle : Nat) : List Nat → List (List Nat)
  | [] => []
  | b :: rest => splitGo needle [] (b :: rest)

/-- Models Rust std str::from_utf8 validity (RFC 3629): decides whether a byte
sequence is well-formed UTF-8.  External to the repository; the cache reader
only uses it as a yes/no gate on the revision bytes. -/
def utf8Valid : List Nat → Bool
  | [] => true
  | b :: rest =>
    if b < 0x80 then utf8Valid rest
    else if b < 0xC2 then false
    else if b < 0xE0 then
      match rest with
      | c1 :: r => decide (0x80 ≤ c1 ∧ c1 < 0xC0) && utf8Valid r
      | [] => false
    else if b < 0xF0 then
      match rest with
      | c1 :: c2 :: r =>
        let lo := if b = 0xE0 then 0xA0 else 0x80
        let hi := if b = 0xED then 0xA0 else 0xC0
        decide (lo ≤ c1 ∧ c1 < hi) && decide (0x80 ≤ c2 ∧ c2 < 0xC0) && utf8Valid r
      | _ => false
    else if b < 0xF5 then
      match rest with
      | c1 :: c2 :: c3 :: r =>
        let lo := if b = 0xF0 then 0x90 else 0x80
        let hi := if b = 0xF4 then 0x90 else 0xC0
        decide (lo ≤ c1 ∧ c1 < hi) && decide (0x80 ≤ c2 ∧ c2 < 0xC0) &&
          decide (0x80 ≤ c3 ∧ c3 < 0xC0) && utf8Valid r
      | _ => false
    else false

/-- The CacheError enum of src/error.rs. -/
inductive CacheError where
  | invalidCacheEntry
  | outdatedCacheVersion
  | unknownCacheVersion
  | unknownIndexVersion
  | outdatedRevision
  | invalidCrateVersion
deriving DecidableEq, Repr

/-- The variants of the top-level Error enum of src/error.rs that the verified
operations can produce (`serde` stands for Error::Json, `statusCode` for
Error::Http(HttpError::StatusCode), `io` for Error::Io/IoPath). -/
inductive Error where
  | cache (e : CacheError)
  | serde
  | noCrateVersions
  | statusCode (code : Nat)
  | io
deriving DecidableEq, Repr

/-- ValidCacheEntry from src/cache.rs: the parsed revision bytes and the raw
version-entries region of the buffer. -/
structure ValidCacheEntry where
  revision : List Nat
  version_entries : List Nat
deriving DecidableEq, Repr

/-- CURRENT_CACHE_VERSION from src/cache.rs. -/
def CURRENT_CACHE_VERSION : Nat := 3

/-- INDEX_V_MAX from src/cache.rs. -/
def INDEX_V_MAX : Nat := 2

/-- ValidCacheEntry::read from src/cache.rs, translated step by step: first
byte compared against CURRENT_CACHE_VERSION, four little-endian bytes as the
index format version compared against INDEX_V_MAX, then the NUL-split
iterator must yield a UTF-8 revision and at least two further items. -/
def ValidCacheEntry.read (buffer : List Nat) : Except CacheError ValidCacheEntry :=
  match buffer with
  | [] => .error .invalidCacheEntry
  | cache_version :: rest =>
    if cache_version < CURRENT_CACHE_VERSION then .error .outdatedCacheVersion
    else if CURRENT_CACHE_VERSION < cache_version then .error .unknownCacheVersion
    else
      match rest with
      | b0 :: b1 :: b2 :: b3 :: body =>
        if INDEX_V_MAX > b0 + 256 * b1 + 65536 * b2 + 16777216 * b3 then
          .error .unknownIndexVersion
        else
          match splitB 0 body with
          | [] => .error .invalidCacheEntry
          | revision :: items =>
            if utf8Valid revision then
              match items with
              | [] => .error .invalidCacheEntry
              | [_] => .error .invalidCacheEntry
              | _ :: _ :: _ =>
                .ok { revision, version_entries := body.drop (revision.length + 1) }
            else .error .outdatedRevision
      | _ => .error .invalidCacheEntry

/-- IndexKrate from src/krate.rs, generic over the version representation
(the codec treats versions through serde_json and semver only). -/
structure IndexKrate (V : Type) where
  versions : List V
deriving DecidableEq, Repr

/-- IndexKrate::from_cache from src/cache.rs: consume the item sequence in
(semver, json) pairs; a missing json item is InvalidCrateVersion, a failed
parse (serde_json::from_slice, abstracted as `par`) is a serde error; the
parsed versions are pushed unchanged, in order. -/
def fromCache {V : Type} (par : List Nat → Option V) : List (List Nat) → Except Error (List V)
  | [] => .ok []
  | [_] => .error (.cache .invalidCrateVersion)
  | _ :: blob :: rest =>
    match par blob with
    | none => .error .serde
    | some v => (fromCache par rest).map (v :: ·)

/-- ValidCacheEntry::to_krate from src/cache.rs: an expected revision that
differs short-circuits to Ok(None); otherwise the version entries are split
on NUL and handed to IndexKrate::from_cache. -/
def ValidCacheEntry.to_krate {V : Type} (par : List Nat → Option V)
    (e : ValidCacheEntry) (revision : Option (List Nat)) :
    Except Error (Option (IndexKrate V)) :=
  match revision with
  | some iv =>
    if iv ≠ e.revision then .ok none
    else (fromCache par (splitB 0 e.version_entries)).map (some ⟨·⟩)
  | none => (fromCache par (splitB 0 e.version_entries)).map (some ⟨·⟩)

/-- The per-version region of a cache entry: for each version the writer
emits the semver rendering, NUL, the JSON rendering, NUL. -/
def versionBlocks {V : Type} (ser sem : V → List Nat) (vs : List V) : List Nat :=
  (vs.map (fun iv => sem iv ++ [0] ++ ser iv ++ [0])).flatten

/-- IndexKrate::write_cache_entry from src/cache.rs: the exact byte buffer the
writer produces, with `sem` standing for the semver rendering
(iv.version.to_string()) and `ser` for serde_json::to_writer of a version. -/
def writeCacheEntry {V : Type} (ser sem : V → List Nat)
    (k : IndexKrate V) (revision : List Nat) : List Nat :=
  CURRENT_CACHE_VERSION :: ([2, 0, 0, 0] ++ revision ++ [0] ++
    versionBlocks ser sem k.versions)

/-! URL to local directory (src/utils.rs).  The hash is Rust std
SipHasher::new_with_keys(0, 0), SipHash-2-4, with the hasher fed by the Hash
impls the source invokes: a u64 contributes its eight little-endian bytes and
a str contributes its bytes followed by 0xff. -/

/-- Arithmetic is on 64-bit words modelled as naturals reduced modulo 2^64. -/
def M64 : Nat := 18446744073709551616

/-- Left rotation of a 64-bit word. -/
def rotl64 (x r : Nat) : Nat := ((x <<< r) % M64) ||| (x >>> (64 - r))

/-- The four SipHash state words. -/
structure SipState where
  v0 : Nat
  v1 : Nat
  v2 : Nat
  v3 : Nat

/-- One SipRound. -/
def sipRound (s : SipState) : SipState :=
  let v0 := (s.v0 + s.v1) % M64
  let v1 := rotl64 s.v1 13
  let v1 := v1 ^^^ v0
  let v0 := rotl64 v0 32
  let v2 := (s.v2 + s.v3) % M64
  let v3 := rotl64 s.v3 16
  let v3 := v3 ^^^ v2
  let v0 := (v0 + v3) % M64
  let v3 := rotl64 v3 21
  let v3 := v3 ^^^ v0
  let v2 := (v2 + v1) % M64
  let v1 := rotl64 v1 17
  let v1 := v1 ^^^ v2
  let v2 := rotl64 v2 32
  ⟨v0, v1, v2, v3⟩

/-- Absorb one message word (SipHash-2-4: two rounds per word). -/
def sipCompress (s : SipState) (m : Nat) : SipState :=
  let s := { s with v3 := s.v3 ^^^ m }
  let s := sipRound (sipRound s)
  { s with v0 := s.v0 ^^^ m }

/-- Little-endian value of a byte list. -/
def leVal : List Nat → Nat
  | [] => 0
  | b :: rest => b + 256 * leVal rest

/-- Finalization: the last word packs the remaining bytes below the total
length modulo 256 in the top byte, then v2 is xored with 0xff and four
rounds are applied. -/
def sipFinish (s : SipState) (tail : List Nat) (total : Nat) : Nat :=
  let b := ((total % 256) <<< 56) ||| leVal tail
  let s := sipCompress s b
  let s := { s with v2 := s.v2 ^^^ 0xff }
  let s := sipRound (sipRound (sipRound (sipRound s)))
  s.v0 ^^^ s.v1 ^^^ s.v2 ^^^ s.v3

/-- Absorb the message eight bytes at a time, then finalize. -/
def sipLoop (s : SipState) (total : Nat) : List Nat → Nat
  | b0 :: b1 :: b2 :: b3 :: b4 :: b5 :: b6 :: b7 :: rest =>
    sipLoop (sipCompress s (leVal [b0, b1, b2, b3, b4, b5, b6, b7])) total rest
  | tail => sipFinish s tail total

/-- SipHash-2-4 of a byte stream under keys (0, 0), as produced by
std::hash::SipHasher::new_with_keys(0, 0) followed by finish(). -/
def sipHash24 (data : List Nat) : Nat :=
  sipLoop ⟨0x736f6d6570736575, 0x646f72616e646f6d,
           0x6c7967656e657261, 0x7465646279746573⟩ data.length data

/-- Eight little-endian bytes of a 64-bit value (u64::to_le_bytes). -/
def le8 (n : Nat) : List Nat :=
  [n % 256, n / 256 % 256, n / 65536 % 256, n / 16777216 % 256,
   n / 4294967296 % 256, n / 1099511627776 % 256,
   n / 281474976710656 % 256, n / 72057594037927936 % 256]

/-- encode_hex from src/utils.rs: two lowercase hex characters per byte. -/
def encodeHex (input : List Nat) : List Nat :=
  (input.map (fun b =>
    [(S "0123456789abcdef").getD (b >>> 4) 0,
     (S "0123456789abcdef").getD (b &&& 0xf) 0])).flatten

/-- The byte stream std::hash::Hash feeds the hasher for a u64 followed by a
str: write_u64 contributes to_le_bytes, the str contributes its bytes and a
trailing 0xff. -/
def hashIdent (kind : Nat) (url : List Nat) : List Nat :=
  encodeHex (le8 (sipHash24 (le8 kind ++ url ++ [0xff])))

/-- Index of the first occurrence of `pat` in `l` (str::find for a literal
pattern). -/
def findSeq (l pat : List Nat) : Option Nat :=
  match l with
  | [] => if pat.isEmpty then some 0 else none
  | _ :: rest =>
    if pat.isPrefixOf l then some 0 else (findSeq rest pat).map (· + 1)

/-- str::split_once(c): the pieces before and after the first occurrence of
`c`, or none when `c` does not occur. -/
def splitOnce (l : List Nat) (c : Nat) : Option (List Nat × List Nat) :=
  match l with
  | [] => none
  | b :: rest =>
    if b = c then some ([], rest)
    else (splitOnce rest c).map (fun p => (b :: p.1, p.2))

/-- Index of the last occurrence of byte `c` (str::rfind). -/
def rfindByte (l : List Nat) (c : Nat) : Option Nat :=
  match l with
  | [] => none
  | b :: rest =>
    match rfindByte rest c with
    | some i => some (i + 1)
    | none => if b = c then some 0 else none

/-- ASCII lowercasing of a byte (str::to_lowercase restricted to the ASCII
hosts the fixtures use). -/
def lowerByte (b : Nat) : Nat := if 65 ≤ b ∧ b ≤ 90 then b + 32 else b

/-- The host part of `url[scheme_ind..]`: up to the first slash, then up to
the first colon (port trim), as computed twice in src/utils.rs. -/
def hostOf (url : List Nat) (scheme_ind : Nat) : List Nat :=
  let tail := url.drop scheme_ind
  let host :=
    match findSeq tail [47] with
    | some e => tail.take e
    | none => tail
  host.takeWhile (· ≠ 58)

/-- UrlDir from src/utils.rs. -/
structure UrlDir where
  dir_name : List Nat
  canonical : List Nat
deriving DecidableEq, Repr

/-- canonicalize_url from src/utils.rs: strip a git+ scheme modifier,
lowercase the whole url when the host is exactly github.com, truncate at the
last hash then at the last question mark, drop one trailing slash, and drop
a trailing .git only when the result contains github.com/ somewhere. -/
def canonicalizeUrl (url : List Nat) : Except Error (List Nat) :=
  let url := if (S "git+").isPrefixOf url then url.drop 4 else url
  match findSeq url (S "://") with
  | none => .error .io
  | some i =>
    let scheme_ind := i + 3
    let host := hostOf url scheme_ind
    let canonical := if host = S "github.com" then url.map lowerByte else url
    let canonical :=
      match rfindByte canonical 35 with
      | some h => canonical.take h
      | none => canonical
    let canonical :=
      match rfindByte canonical 63 with
      | some q => canonical.take q
      | none => canonical
    let canonical :=
      if canonical.getLast? = some 47 then canonical.dropLast else canonical
    let canonical :=
      if (findSeq canonical (S "github.com/")).isSome ∧
          (S ".git").isSuffixOf canonical then
        canonical.take (canonical.length - 4)
      else canonical
    .ok canonical

/-- The registry/sparse arm of url_to_local_dir: hash the kind tag and the
url, name the directory host-ident, return the url itself as canonical. -/
def registryDir (url : List Nat) (scheme_ind0 : Nat) (kind : Nat) : UrlDir :=
  let ident := hashIdent kind url
  let host := hostOf url (scheme_ind0 + 3)
  ⟨host ++ [45] ++ ident, url⟩

/-- url_to_local_dir from src/utils.rs.  A missing :// or an unknown scheme
modifier is an InvalidUrl error (collapsed to Error.io here, the variant
identity being irrelevant to the verified claims); sparse+ urls keep their
prefix in the hash input with kind tag 3; registry+ urls are hashed after
stripping the nine-byte prefix with kind tag 2, as is an unmodified url;
git+ urls are canonicalized and hashed without a kind tag, the directory
taking the last path component of the canonical url. -/
def urlToLocalDir (url : List Nat) : Except Error UrlDir :=
  match findSeq url (S "://") with
  | none => .error .io
  | some scheme_ind0 =>
    let scheme_str := url.take scheme_ind0
    match splitOnce scheme_str 43 with
    | some (m, _) =>
      if m = S "sparse" then .ok (registryDir url scheme_ind0 3)
      else if m = S "registry" then
        .ok (registryDir (url.drop 9) (scheme_ind0 - 9) 2)
      else if m = S "git" then
        match canonicalizeUrl (url.drop 4) with
        | .error e => .error e
        | .ok canonical =>
          let last := (canonical.splitOn 47).getLast? |>.getD (S "_empty")
          let ident := encodeHex (le8 (sipHash24 (canonical ++ [0xff])))
          .ok ⟨last ++ [45] ++ ident, canonical⟩
      else .error .io
    | none => .ok (registryDir url scheme_ind0 2)

/-! Crate-name path algebra (src/lib.rs).  Names are ASCII, so the byte
slices the source takes coincide with character prefixes. -/

/-- KrateName::prefix from src/lib.rs, returning the characters pushed onto
the accumulator.  The source marks a zero-length name as unreachable (the
KrateName constructor rejects empty names); that case is modelled as pushing
nothing. -/
def krPrefixChars (name : List Char) (sep : Char) : List Char :=
  match name.length with
  | 0 => []
  | 1 => ['1']
  | 2 => ['2']
  | 3 => ['3', sep] ++ name.take 1
  | _ + 4 => name.take 2 ++ [sep] ++ (name.drop 2).take 2

/-- KrateName::relative_path from src/lib.rs with an explicit separator:
prefix, separator, name. -/
def relativePath (name : List Char) (sep : Char) : List Char :=
  krPrefixChars name sep ++ [sep] ++ name

/-! Sparse engine (src/index/sparse.rs) and local cache (src/index/local.rs).
JSON and disk access stay abstract: the per-line serde_json parse is a
function parameter and the bytes read from the cache file are an input. -/

/-- The features map of a version, HashMap String (Vec String) modelled as an
association list of byte-string keys to lists of byte strings. -/
abbrev Features : Type := List (List Nat × List (List Nat))

/-- The slice of an IndexVersion (src/krate.rs) the verified operations
inspect: the features and features2 maps, with every remaining field
(name, vers, deps, links, rust_version, cksum, yanked) collapsed into
`rest`. -/
structure IndexVersionF (α : Type) where
  features : Features
  features2 : Option Features
  rest : α
deriving DecidableEq

/-- One step of the features2 merge of src/krate.rs: the entry API appends
the incoming values to the vector already under the key, inserting the key
when it is absent. -/
def entryAppend (m : Features) (k : List Nat) (val : List (List Nat)) : Features :=
  if m.any (fun p => p.1 = k) then
    m.map (fun p => if p.1 = k then (p.1, p.2 ++ val) else p)
  else m ++ [(k, val)]

/-- The features2 handling of IndexKrate::from_slice_with_context
(src/krate.rs): take() the features2 map and fold every entry into features
(the Arc::get_mut always succeeds on a freshly deserialized version). -/
def mergeF2 {α : Type} (v : IndexVersionF α) : IndexVersionF α :=
  match v.features2 with
  | none => v
  | some f2 =>
    { v with
      features := f2.foldl (fun acc p => entryAppend acc p.1 p.2) v.features
      features2 := none }

/-- The per-line loop of IndexKrate::from_slice_with_context: parse each line
(serde_json::from_slice abstracted as `par`), merge features2, and collect in
order.  The dedupe step is modelled from the spec: identical dependency
lists and feature maps merely share storage, so it preserves every version
value and is the identity here (dedupe.rs is not part of the sources). -/
def parseLines {α : Type} (par : List Nat → Option (IndexVersionF α)) :
    List (List Nat) → Except Error (List (IndexVersionF α))
  | [] => .ok []
  | line :: rest =>
    match par line with
    | none => .error .serde
    | some v => (parseLines par rest).map (mergeF2 v :: ·)

/-- IndexKrate::from_slice (src/krate.rs): trim trailing newlines, split on
newline, parse every line, and reject an empty version list with
NoCrateVersions. -/
def fromSlice {α : Type} (par : List Nat → Option (IndexVersionF α))
    (bytes : List Nat) : Except Error (IndexKrate (IndexVersionF α)) :=
  let bytes := (bytes.reverse.dropWhile (· = 10)).reverse
  match parseLines par (splitB 10 bytes) with
  | .error e => .error e
  | .ok versions =>
    if versions.isEmpty then .error .noCrateVersions else .ok ⟨versions⟩

/-- IndexCache::cached_krate from src/index/local.rs, with the bytes the
cache file holds (none when the file does not exist) as input: read the
entry, then convert it with the optional expected revision. -/
def cachedKrate {V : Type} (par : List Nat → Option V)
    (contents : Option (List Nat)) (revision : Option (List Nat)) :
    Except Error (Option (IndexKrate V)) :=
  match contents with
  | none => .ok none
  | some c =>
    match ValidCacheEntry.read c with
    | .error e => .error (.cache e)
    | .ok valid => valid.to_krate par revision

/-- The conditional request headers SparseIndex::make_remote_request can
attach. -/
inductive CondHeader where
  | ifNoneMatch
  | ifModifiedSince
deriving DecidableEq, Repr

/-- Byte-wise ASCII lowercase of a string. -/
def lowerAscii (l : List Nat) : List Nat := l.map lowerByte

/-- str::trim for the ASCII strings the revisions are: drop leading and
trailing ASCII whitespace bytes. -/
def trimAscii (l : List Nat) : List Nat :=
  let ws : Nat → Bool := fun b => b = 32 ∨ 9 ≤ b ∧ b ≤ 13
  ((l.dropWhile ws).reverse.dropWhile ws).reverse

/-- http::HeaderValue::from_str validity: every byte is visible ASCII, space
or horizontal tab. -/
def headerValueOk (l : List Nat) : Bool :=
  l.all fun b => (32 ≤ b ∧ b < 127) ∨ b = 9

/-- The set_cache_version closure of SparseIndex::make_remote_request
(src/index/sparse.rs), as a function of the outcome of reading the cache
file: any read or parse failure yields no conditional header; otherwise the
revision is split at the first colon, the value must form a valid header
value after trimming, and the key is compared against the etag and
last-modified header names (http::HeaderName equality against a str is
ASCII-case-insensitive).  The result is the conditional header inserted into
the request, if any. -/
def setCacheVersion (cacheRead : Except Unit (Option (List Nat))) :
    Option (CondHeader × List Nat) :=
  match cacheRead with
  | .error _ => none
  | .ok none => none
  | .ok (some contents) =>
    match ValidCacheEntry.read contents with
    | .error _ => none
    | .ok valid =>
      match splitOnce valid.revision 58 with
      | none => none
      | some (key, value) =>
        let value := trimAscii value
        if headerValueOk value then
          if lowerAscii key = S "etag" then some (.ifNoneMatch, value)
          else if lowerAscii key = S "last-modified" then
            some (.ifModifiedSince, value)
          else none
        else none

/-- The request SparseIndex::make_remote_request builds, restricted to its
header content; the three static headers are always present and at most one
conditional header is inserted by set_cache_version. -/
structure RemoteRequest where
  cargoProtocol : List Nat
  accept : List Nat
  acceptEncoding : List Nat
  conditional : Option (CondHeader × List Nat)
deriving DecidableEq

/-- SparseIndex::make_remote_request from src/index/sparse.rs as a function
of the cache-file read outcome. -/
def makeRemoteRequest (cacheRead : Except Unit (Option (List Nat))) :
    RemoteRequest :=
  { cargoProtocol := S "version=1"
    accept := S "text/plain"
    acceptEncoding := S "gzip,identity"
    conditional := setCacheVersion cacheRead }

/-- The parts of an http response SparseIndex::parse_remote_response
inspects: the status code, the ETag and Last-Modified header bytes when
present, and the body. -/
structure HttpResponse where
  status : Nat
  etag : Option (List Nat)
  lastModified : Option (List Nat)
  body : List Nat

/-- http::HeaderValue::to_str, which succeeds only on visible ASCII. -/
def headerToStr (l : List Nat) : Option (List Nat) :=
  if l.all (fun b => 32 ≤ b ∧ b < 127) then some l else none

/-- The revision parse_remote_response derives on the 200 path: prefer the
ETag header, else Last-Modified, formatted with the lowercase header name
(format! with http::header::ETAG and LAST_MODIFIED displays them lowercase),
falling back to the literal Unknown.  A present header whose bytes are not
visible ASCII also falls back to Unknown. -/
def responseRevision (resp : HttpResponse) : List Nat :=
  let version :=
    match resp.etag with
    | some et => (headerToStr et).map (fun v => S "etag" ++ S ": " ++ v)
    | none =>
      match resp.lastModified with
      | some lm => (headerToStr lm).map (fun v => S "last-modified" ++ S ": " ++ v)
      | none => none
  version.getD (S "Unknown")

/-- SparseIndex::parse_remote_response from src/index/sparse.rs.  Inputs
beyond the response: the serde parse function, the local cache file bytes
(used by the 304 path through IndexCache::cached_krate) and the outcome the
disk write would have (the source discards it with a let _err binding).  The
result pairs the return value with the revision written to the cache, if
any. -/
def parseRemoteResponse {α : Type} (par : List Nat → Option (IndexVersionF α))
    (cacheFile : Option (List Nat)) (resp : HttpResponse)
    (writeCacheEntry : Bool) (writeOutcome : Except Unit Unit) :
    Except Error (Option (IndexKrate (IndexVersionF α))) × Option (List Nat) :=
  if resp.status = 200 then
    match fromSlice par resp.body with
    | .error e => (.error e, none)
    | .ok krate =>
      let written :=
        if writeCacheEntry then
          match writeOutcome with
      -- the write outcome is discarded either way (let _err = ...): the
      -- revision below is recorded as written in both cases
          | .ok _ => some (responseRevision resp)
          | .error _ => some (responseRevision resp)
        else none
      (.ok (some krate), written)
  else if resp.status = 304 then (cachedKrate par cacheFile none, none)
  else if resp.status = 401 then (.error (.statusCode 401), none)
  else if resp.status = 404 ∨ resp.status = 410 ∨ resp.status = 451 then
    (.ok none, none)
  else (.error (.statusCode resp.status), none)

/-- RemoteGitIndex::cached_krate from src/index/git_remote.rs, as a function
of the cache file bytes, the stored head commit hex (GitIndex.head) and the
sha1 of the blob at the crate path in the head tree (none when read_blob
finds no blob there): the entry is converted only when its revision matches
the head commit hex or the hex-encoded blob id. -/
def gitCachedKrate {V : Type} (par : List Nat → Option V)
    (contents : Option (List Nat)) (headCommit : Option (List Nat))
    (blob : Option (List Nat)) : Except Error (Option (IndexKrate V)) :=
  match contents with
  | none => .ok none
  | some cached =>
    match ValidCacheEntry.read cached with
    | .error e => .error (.cache e)
    | .ok valid =>
      if some valid.revision ≠ headCommit then
        match blob with
        | none => .ok none
        | some sha1 =>
          let blob_id := encodeHex sha1
          if valid.revision ≠ blob_id then .ok none
          else valid.to_krate par none
      else valid.to_krate par none

instance {ε α : Type _} [DecidableEq ε] [DecidableEq α] : DecidableEq (Except ε α) :=
  fun x y =>
    match x, y with
    | .ok a, .ok b =>
      if h : a = b then .isTrue (by rw [h])
      else .isFalse (by intro hc; injection hc; contradiction)
    | .error a, .error b =>
      if h : a = b then .isTrue (by rw [h])
      else .isFalse (by intro hc; injection hc; contradiction)
    | .ok _, .error _ => .isFalse fun hc => Except.noConfusion hc
    | .error _, .ok _ => .isFalse fun hc => Except.noConfusion hc

/-! Facts about the split iterator. -/

theorem splitGo_cons_needle (needle : Nat) (cur : List Nat) (l : List Nat)
    (hl : l ≠ []) : splitGo needle cur (needle :: l) = cur :: splitGo needle [] l := by
  cases l with
  | nil => exact absurd rfl hl
  | cons b r => simp [splitGo]

theorem splitGo_cons_other (needle : Nat) (cur : List Nat) (b : Nat) (l : List Nat)
    (hb : b ≠ needle) : splitGo needle cur (b :: l) = splitGo needle (cur ++ [b]) l := by
  simp [splitGo, hb]

theorem splitGo_append (needle : Nat) (x : List Nat) (hx : needle ∉ x) :
    ∀ cur l, splitGo needle cur (x ++ l) = splitGo needle (cur ++ x) l := by
  induction x with
  | nil => intro cur l; simp
  | cons b r ih =>
    intro cur l
    have hb : b ≠ needle := fun h => hx (h ▸ List.mem_cons_self b r)
    have hr : needle ∉ r := fun h => hx (List.mem_cons_of_mem b h)
    rw [List.cons_append, splitGo_cons_other needle cur b (r ++ l) hb, ih hr]
    simp

theorem splitB_of_ne_nil (needle : Nat) (l : List Nat) (hl : l ≠ []) :
    splitB needle l = splitGo needle [] l := by
  cases l with
  | nil => exact absurd rfl hl
  | cons b r => rfl

theorem splitB_token (x l : List Nat) (hx : 0 ∉ x) (hl : l ≠ []) :
    splitB 0 (x ++ 0 :: l) = x :: splitB 0 l := by
  have hne : x ++ 0 :: l ≠ [] := by simp
  rw [splitB_of_ne_nil 0 _ hne, splitGo_append 0 x hx [] (0 :: l), List.nil_append,
    splitGo_cons_needle 0 x l hl, splitB_of_ne_nil 0 l hl]

theorem splitB_final (x : List Nat) (hx : 0 ∉ x) :
    splitB 0 (x ++ [0]) = [x] := by
  have hne : x ++ [0] ≠ [] := by simp
  rw [splitB_of_ne_nil 0 _ hne, splitGo_append 0 x hx [] [0], List.nil_append]
  simp [splitGo]

theorem splitGo_first (needle : Nat) :
    ∀ l cur t rest, splitGo needle cur l = t :: rest → rest ≠ [] →
      ∃ x l2, t = cur ++ x ∧ needle ∉ x ∧ l = x ++ needle :: l2 ∧ l2 ≠ [] ∧
        splitGo needle [] l2 = rest := by
  intro l
  induction l with
  | nil =>
    intro cur t rest h hrest
    simp only [splitGo] at h
    cases h
    exact absurd rfl hrest
  | cons b r ih =>
    intro cur t rest h hrest
    by_cases hb : b = needle
    · subst hb
      cases r with
      | nil =>
        simp only [splitGo] at h
        cases h
        exact absurd rfl hrest
      | cons c s =>
        rw [splitGo_cons_needle b cur (c :: s) (by simp)] at h
        cases h
        exact ⟨[], c :: s, by simp, by simp, by simp, by simp, rfl⟩
    · rw [splitGo_cons_other needle cur b r hb] at h
      obtain ⟨x, l2, ht, hnx, hl, hl2, hgo⟩ := ih (cur ++ [b]) t rest h hrest
      refine ⟨b :: x, l2, by simp [ht], ?_, by simp [hl], hl2, hgo⟩
      intro hmem
      rcases List.mem_cons.mp hmem with h1 | h1
      · exact hb h1.symm
      · exact hnx h1

/-- Shape of a successfully read buffer: the ok constructor of
ValidCacheEntry::read is reached only when the post-header bytes decompose
as the revision, a NUL, and the version-entries region the entry reports. -/
theorem drop_len_succ_append (x l : List Nat) (c : Nat) :
    (x ++ c :: l).drop (x.length + 1) = l := by
  have h1 : x ++ c :: l = (x ++ [c]) ++ l := by simp
  have h2 : x.length + 1 = (x ++ [c]).length := by simp
  rw [h1, h2, List.drop_left]

theorem read_ok_shape (buffer : List Nat) (e : ValidCacheEntry)
    (h : ValidCacheEntry.read buffer = .ok e) :
    buffer.drop 5 = e.revision ++ 0 :: e.version_entries ∧
      ∃ t1 t2 ts, splitB 0 (buffer.drop 5) = e.revision :: t1 :: t2 :: ts := by
  cases buffer with
  | nil => simp [ValidCacheEntry.read] at h
  | cons cv rest =>
    simp only [ValidCacheEntry.read] at h
    by_cases hlt : cv < CURRENT_CACHE_VERSION
    · simp [hlt] at h
    · simp only [hlt, if_false] at h
      by_cases hgt : CURRENT_CACHE_VERSION < cv
      · simp [hgt] at h
      · simp only [hgt, if_false] at h
        rcases rest with _ | ⟨b0, _ | ⟨b1, _ | ⟨b2, _ | ⟨b3, body⟩⟩⟩⟩
        · simp at h
        · simp at h
        · simp at h
        · simp at h
        · simp only at h
          by_cases hiv : INDEX_V_MAX > b0 + 256 * b1 + 65536 * b2 + 16777216 * b3
          · simp [hiv] at h
          · simp only [hiv, if_false] at h
            rcases hitems : splitB 0 body with _ | ⟨revision, items⟩
            · simp [hitems] at h
            · simp only [hitems] at h
              by_cases hutf : utf8Valid revision = true
              · simp only [hutf, if_true] at h
                rcases items with _ | ⟨t1, _ | ⟨t2, ts⟩⟩
                · simp at h
                · simp at h
                · simp only [Except.ok.injEq] at h
                  subst h
                  have hgo : splitGo 0 [] body = revision :: t1 :: t2 :: ts := by
                    rw [← splitB_of_ne_nil 0 body
                      (by rintro rfl; simp [splitB] at hitems)]
                    exact hitems
                  obtain ⟨x, l2, hx1, hx2, hx3, hx4, hx5⟩ :=
                    splitGo_first 0 body [] revision (t1 :: t2 :: ts) hgo (by simp)
                  simp only [List.nil_append] at hx1
                  subst hx1
                  have hdrop : body.drop (revision.length + 1) = l2 := by
                    rw [hx3, drop_len_succ_append]
                  constructor
                  · simp only [List.drop_succ_cons, List.drop_zero]
                    rw [hdrop, hx3]
                  · refine ⟨t1, t2, ts, ?_⟩
                    simp only [List.drop_succ_cons, List.drop_zero]
                    exact hitems
              · simp [hutf] at h

theorem read_cons_lt3 (cv : Nat) (rest : List Nat) (h : cv < 3) :
    ValidCacheEntry.read (cv :: rest) = .error .outdatedCacheVersion := by
  simp [ValidCacheEntry.read, CURRENT_CACHE_VERSION, h]

theorem read_cons_gt3 (cv : Nat) (rest : List Nat) (h : 3 < cv) :
    ValidCacheEntry.read (cv :: rest) = .error .unknownCacheVersion := by
  have h2 : ¬cv < 3 := by omega
  simp [ValidCacheEntry.read, CURRENT_CACHE_VERSION, h, h2]

theorem read_cons_ge_cases (cv : Nat) (rest : List Nat)
    (h1 : ¬cv < 3) (h2 : ¬3 < cv) :
    ValidCacheEntry.read (cv :: rest) ≠ .error .outdatedCacheVersion ∧
      ValidCacheEntry.read (cv :: rest) ≠ .error .unknownCacheVersion := by
  constructor <;>
  · simp only [ValidCacheEntry.read, CURRENT_CACHE_VERSION, h1, h2, if_false]
    repeat' split
    all_goals simp

/-- C2: cache-entry version negotiation in ValidCacheEntry::read.  The reader
answers OutdatedCacheVersion exactly when the first byte is below 3,
UnknownCacheVersion exactly when it is above 3, and with a first byte of 3
it answers UnknownIndexVersion whenever the little-endian u32 in bytes 1..5
is strictly below the reader maximum 2 (declared version compared below the
reader maximum, not the reverse). -/
theorem c2_cache_version_negotiation (buffer : List Nat) :
    (ValidCacheEntry.read buffer = .error .outdatedCacheVersion ↔
      ∃ b, buffer.head? = some b ∧ b < 3) ∧
    (ValidCacheEntry.read buffer = .error .unknownCacheVersion ↔
      ∃ b, buffer.head? = some b ∧ 3 < b) ∧
    (∀ b1 b2 b3 b4 rest2, buffer = 3 :: b1 :: b2 :: b3 :: b4 :: rest2 →
      b1 + 256 * b2 + 65536 * b3 + 16777216 * b4 < 2 →
      ValidCacheEntry.read buffer = .error .unknownIndexVersion) := by
  refine ⟨?_, ?_, ?_⟩
  · cases buffer with
    | nil => simp [ValidCacheEntry.read]
    | cons cv rest =>
      constructor
      · intro hr
        rcases Nat.lt_trichotomy cv 3 with h | h | h
        · exact ⟨cv, rfl, h⟩
        · subst h
          exact absurd hr (read_cons_ge_cases 3 rest (by omega) (by omega)).1
        · rw [read_cons_gt3 cv rest h] at hr
          simp at hr
      · rintro ⟨b, hb, hlt⟩
        simp only [List.head?_cons, Option.some.injEq] at hb
        subst hb
        exact read_cons_lt3 _ rest hlt
  · cases buffer with
    | nil => simp [ValidCacheEntry.read]
    | cons cv rest =>
      constructor
      · intro hr
        rcases Nat.lt_trichotomy cv 3 with h | h | h
        · rw [read_cons_lt3 cv rest h] at hr
          simp at hr
        · subst h
          exact absurd hr (read_cons_ge_cases 3 rest (by omega) (by omega)).2
        · exact ⟨cv, rfl, h⟩
      · rintro ⟨b, hb, hgt⟩
        simp only [List.head?_cons, Option.some.injEq] at hb
        subst hb
        exact read_cons_gt3 _ rest hgt
  · rintro b1 b2 b3 b4 rest2 rfl hlt
    simp [ValidCacheEntry.read, CURRENT_CACHE_VERSION, INDEX_V_MAX, hlt]

/-- Witness for C2: a first byte of 2 is outdated; with the current cache
version 3 an index format version of 1 is rejected as unknown. -/
theorem c2_witness :
    ValidCacheEntry.read [2] = .error .outdatedCacheVersion ∧
      ValidCacheEntry.read [3, 1, 0, 0, 0] = .error .unknownIndexVersion :=
  ⟨(c2_cache_version_negotiation [2]).1.mpr ⟨2, rfl, by decide⟩,
   (c2_cache_version_negotiation [3, 1, 0, 0, 0]).2.2 1 0 0 0 [] rfl (by decide)⟩

/-- C10: totality of the cache reader.  ValidCacheEntry::read is a total
function into a sum of a value and a CacheError (it is defined by structural
recursion on the buffer, hence never panics), and the one unchecked slice it
takes, buffer[revision.len() + 1 ..], is evaluated only in the success
branch, where the post-header bytes provably contain a NUL right after the
revision because the splitting iterator produced two further items: on
success the post-header region decomposes exactly as revision, NUL,
version_entries, so the slice start is in bounds. -/
theorem c10_reader_slice_in_bounds (buffer : List Nat) (e : ValidCacheEntry)
    (h : ValidCacheEntry.read buffer = .ok e) :
    buffer.drop 5 = e.revision ++ 0 :: e.version_entries ∧
      e.revision.length + 1 ≤ (buffer.drop 5).length ∧
      ∃ t1 t2 ts, splitB 0 (buffer.drop 5) = e.revision :: t1 :: t2 :: ts := by
  obtain ⟨h1, h2⟩ := read_ok_shape buffer e h
  refine ⟨h1, ?_, h2⟩
  rw [h1]
  simp

/-- Witness for C10 on a concrete five-byte header, revision r and version
pair (s, j). -/
theorem c10_witness :
    (3 :: 2 :: 0 :: 0 :: 0 :: (S "r" ++ [0] ++ S "s" ++ [0] ++ S "j" ++ [0])).drop 5 =
        S "r" ++ 0 :: (S "s" ++ [0] ++ S "j" ++ [0]) ∧
      (S "r").length + 1 ≤
        ((3 :: 2 :: 0 :: 0 :: 0 :: (S "r" ++ [0] ++ S "s" ++ [0] ++ S "j" ++ [0])).drop 5).length ∧
      ∃ t1 t2 ts,
        splitB 0 ((3 :: 2 :: 0 :: 0 :: 0 ::
          (S "r" ++ [0] ++ S "s" ++ [0] ++ S "j" ++ [0])).drop 5) =
          S "r" :: t1 :: t2 :: ts :=
  c10_reader_slice_in_bounds _ ⟨S "r", S "s" ++ [0] ++ S "j" ++ [0]⟩ (by decide)

/-- C7: prefix stability.  For every valid crate name (non-empty, all ASCII)
and separator, KrateName::relative_path produces 1 sep name for length 1,
2 sep name for length 2, 3 sep first-char sep name for length 3, and the
first two characters, sep, characters two and three, sep, name for length
at least 4, preserving case throughout (the name occurs verbatim). -/
theorem c7_relative_path_shape (name : List Char) (sep : Char)
    (_hne : name ≠ []) (_hascii : ∀ c ∈ name, c.toNat < 128) :
    (name.length = 1 → relativePath name sep = '1' :: sep :: name) ∧
    (name.length = 2 → relativePath name sep = '2' :: sep :: name) ∧
    (name.length = 3 →
      relativePath name sep = '3' :: sep :: name.take 1 ++ sep :: name) ∧
    (4 ≤ name.length →
      relativePath name sep =
        name.take 2 ++ sep :: (name.drop 2).take 2 ++ sep :: name) := by
  refine ⟨?_, ?_, ?_, ?_⟩ <;> intro hlen
  · simp [relativePath, krPrefixChars, hlen]
  · simp [relativePath, krPrefixChars, hlen]
  · simp [relativePath, krPrefixChars, hlen]
  · obtain ⟨m, hm⟩ : ∃ m, name.length = m + 4 := ⟨name.length - 4, by omega⟩
    simp [relativePath, krPrefixChars, hm]

/-- Witness for C7: the ten-character name tame-index with the url
separator. -/
theorem c7_witness :
    relativePath "tame-index".toList '/' =
      "tame-index".toList.take 2 ++ '/' ::
        ("tame-index".toList.drop 2).take 2 ++ '/' :: "tame-index".toList :=
  (c7_relative_path_shape "tame-index".toList '/' (by decide)
    (by decide)).2.2.2 (by decide)

set_option maxRecDepth 1000000 in
/-- C8: URL to directory determinism.  url_to_local_dir is a function of the
input url alone, built from the keyed 64-bit hash over the kind tag (2 for
git registries, 3 for sparse, the sparse+ prefix kept in the hash input) and
the url, the directory being the host, a dash, and the sixteen hex
characters of the hash in little-endian byte order; on the three spec
fixtures it produces exactly the listed directory names. -/
theorem c8_url_to_local_dir_fixtures :
    urlToLocalDir (S "https://github.com/rust-lang/crates.io-index") =
      .ok ⟨S "github.com-1ecc6299db9ec823",
           S "https://github.com/rust-lang/crates.io-index"⟩ ∧
    urlToLocalDir (S "sparse+https://index.crates.io/") =
      .ok ⟨S "index.crates.io-6f17d22bba15001f",
           S "sparse+https://index.crates.io/"⟩ ∧
    urlToLocalDir
        (S "https://dl.cloudsmith.io/aBcW1234aBcW1234/embark/rust/cargo/index.git") =
      .ok ⟨S "dl.cloudsmith.io-ff79e51ddd2b38fd",
           S "https://dl.cloudsmith.io/aBcW1234aBcW1234/embark/rust/cargo/index.git"⟩ := by
  exact ⟨by rfl, by rfl, by rfl⟩

theorem versionBlocks_ne_nil {V : Type} (ser sem : V → List Nat) (vs : List V)
    (h : vs ≠ []) : versionBlocks ser sem vs ≠ [] := by
  cases vs with
  | nil => exact absurd rfl h
  | cons iv rest => simp [versionBlocks]

theorem splitB_versionBlocks {V : Type} (ser sem : V → List Nat) (vs : List V)
    (h : ∀ iv ∈ vs, 0 ∉ sem iv ∧ 0 ∉ ser iv) :
    splitB 0 (versionBlocks ser sem vs) =
      (vs.map (fun iv => [sem iv, ser iv])).flatten := by
  induction vs with
  | nil => simp [versionBlocks, splitB]
  | cons iv rest ih =>
    have hsem : 0 ∉ sem iv := (h iv (by simp)).1
    have hser : 0 ∉ ser iv := (h iv (by simp)).2
    have hrest : ∀ v ∈ rest, 0 ∉ sem v ∧ 0 ∉ ser v := fun v hv => h v (by simp [hv])
    have hshape : versionBlocks ser sem (iv :: rest) =
        sem iv ++ 0 :: (ser iv ++ 0 :: versionBlocks ser sem rest) := by
      simp [versionBlocks]
    rw [hshape]
    by_cases hr : rest = []
    · subst hr
      have hnil : versionBlocks ser sem ([] : List V) = [] := by simp [versionBlocks]
      rw [hnil]
      rw [splitB_token (sem iv) (ser iv ++ 0 :: []) hsem (by simp)]
      have : (ser iv ++ 0 :: ([] : List Nat)) = ser iv ++ [0] := by simp
      rw [this, splitB_final (ser iv) hser]
      simp
    · rw [splitB_token (sem iv) (ser iv ++ 0 :: versionBlocks ser sem rest) hsem
        (by simp)]
      rw [splitB_token (ser iv) (versionBlocks ser sem rest) hser
        (versionBlocks_ne_nil ser sem rest hr)]
      rw [ih hrest]
      simp

theorem fromCache_blocks {V : Type} (par : List Nat → Option V)
    (ser sem : V → List Nat) (vs : List V)
    (hpar : ∀ iv ∈ vs, par (ser iv) = some iv) :
    fromCache par ((vs.map (fun iv => [sem iv, ser iv])).flatten) = .ok vs := by
  induction vs with
  | nil => simp [fromCache]
  | cons iv rest ih =>
    have h1 : par (ser iv) = some iv := hpar iv (by simp)
    have h2 : ∀ v ∈ rest, par (ser v) = some v := fun v hv => hpar v (by simp [hv])
    simp only [List.map_cons, List.flatten_cons, List.cons_append, List.nil_append]
    simp [fromCache, h1, ih h2, Except.map]

/-- C1: round trip of the cache codec.  For any IndexKrate with at least one
version, a revision that is valid UTF-8 without NUL bytes, per-version
semver and JSON renderings without NUL bytes, and a JSON parser that inverts
the serialization on the versions of the crate, reading the buffer produced
by write_cache_entry succeeds, yields exactly the written revision, and
to_krate(None) returns exactly the written crate (here the features2-merge
normalization is the identity: from_cache forwards parsed versions
unchanged); re-serializing the krate and revision recovered from the buffer
reproduces the buffer byte for byte. -/
theorem c1_cache_codec_round_trip {V : Type} (ser sem : V → List Nat)
    (par : List Nat → Option V) (k : IndexKrate V) (rev : List Nat)
    (hk : k.versions ≠ [])
    (hrev : utf8Valid rev = true)
    (hrev0 : 0 ∉ rev)
    (hblocks : ∀ iv ∈ k.versions, 0 ∉ sem iv ∧ 0 ∉ ser iv)
    (hpar : ∀ iv ∈ k.versions, par (ser iv) = some iv) :
    ∃ e, ValidCacheEntry.read (writeCacheEntry ser sem k rev) = .ok e ∧
      e.revision = rev ∧
      e.version_entries = versionBlocks ser sem k.versions ∧
      e.to_krate par none = .ok (some k) ∧
      writeCacheEntry ser sem k e.revision = writeCacheEntry ser sem k rev := by
  obtain ⟨vs⟩ := k
  simp only at hk hblocks hpar
  cases vs with
  | nil => exact absurd rfl hk
  | cons iv0 rest0 =>
    have hBne : versionBlocks ser sem (iv0 :: rest0) ≠ [] :=
      versionBlocks_ne_nil ser sem _ (by simp)
    have htok := splitB_token rev (versionBlocks ser sem (iv0 :: rest0)) hrev0 hBne
    have hsp := splitB_versionBlocks ser sem (iv0 :: rest0) hblocks
    have hread : ValidCacheEntry.read (writeCacheEntry ser sem ⟨iv0 :: rest0⟩ rev) =
        .ok ⟨rev, versionBlocks ser sem (iv0 :: rest0)⟩ := by
      have hbody : writeCacheEntry ser sem ⟨iv0 :: rest0⟩ rev =
          3 :: 2 :: 0 :: 0 :: 0 ::
            (rev ++ 0 :: versionBlocks ser sem (iv0 :: rest0)) := by
        simp [writeCacheEntry, CURRENT_CACHE_VERSION]
      rw [hbody]
      simp only [ValidCacheEntry.read, CURRENT_CACHE_VERSION, INDEX_V_MAX]
      rw [htok, hsp]
      simp only [List.map_cons, List.flatten_cons, List.cons_append, List.nil_append]
      simp [hrev, drop_len_succ_append]
    refine ⟨⟨rev, versionBlocks ser sem (iv0 :: rest0)⟩, hread, rfl, rfl, ?_, rfl⟩
    simp only [ValidCacheEntry.to_krate]
    rw [hsp, fromCache_blocks par ser sem (iv0 :: rest0) hpar]
    rfl

/-- Witness for C1: a one-version crate whose JSON rendering is the version
value itself, semver rendering 1.0.0, revision r. -/
theorem c1_witness :
    ∃ e, ValidCacheEntry.read
        (writeCacheEntry (fun v => v) (fun _ => S "1.0.0") ⟨[S "j"]⟩ (S "r")) = .ok e ∧
      e.revision = S "r" ∧
      e.version_entries = versionBlocks (fun v => v) (fun _ => S "1.0.0") [S "j"] ∧
      e.to_krate some none = .ok (some ⟨[S "j"]⟩) ∧
      writeCacheEntry (fun v => v) (fun _ => S "1.0.0") ⟨[S "j"]⟩ e.revision =
        writeCacheEntry (fun v => v) (fun _ => S "1.0.0") ⟨[S "j"]⟩ (S "r") :=
  c1_cache_codec_round_trip (fun v => v) (fun _ => S "1.0.0") some ⟨[S "j"]⟩ (S "r")
    (by decide) (by decide) (by decide) (by decide) (by decide)

theorem fromCache_pairs {V : Type} (par : List Nat → Option V)
    (pairs : List (List Nat × List Nat))
    (hp : ∀ p ∈ pairs, ∃ v, par p.2 = some v) :
    fromCache par ((pairs.map (fun p => [p.1, p.2])).flatten) =
      .ok (pairs.filterMap (fun p => par p.2)) := by
  induction pairs with
  | nil => simp [fromCache]
  | cons p rest ih =>
    obtain ⟨v, hv⟩ := hp p (by simp)
    have h2 : ∀ q ∈ rest, ∃ v, par q.2 = some v := fun q hq => hp q (by simp [hq])
    simp only [List.map_cons, List.flatten_cons, List.cons_append, List.nil_append]
    simp [fromCache, hv, ih h2, Except.map, List.filterMap_cons]

/-- C3 counterexample: the claim asserts that to_krate merges features2 into
features, dedups, and turns an empty pair list into NoCrateVersions.  On the
code, a ValidCacheEntry with empty version_entries converts to Ok(Some) of a
krate with no versions, not to the NoCrateVersions error, and a parsed
version whose features2 map is populated is returned with that map intact,
not merged (from_cache performs no features2 merge and no dedup; those steps
live in from_slice_with_context). -/
theorem c3_counterexample :
    ValidCacheEntry.to_krate (V := IndexVersionF Unit)
        (fun _ => some ⟨[], some [(S "a", [S "x"])], ()⟩) ⟨S "r", []⟩ none =
      .ok (some ⟨[]⟩) ∧
    (Except.ok (some (⟨[]⟩ : IndexKrate (IndexVersionF Unit))) :
        Except Error (Option (IndexKrate (IndexVersionF Unit)))) ≠
      .error .noCrateVersions ∧
    ValidCacheEntry.to_krate (V := IndexVersionF Unit)
        (fun _ => some ⟨[], some [(S "a", [S "x"])], ()⟩)
        ⟨S "r", S "s" ++ [0] ++ S "j" ++ [0]⟩ none =
      .ok (some ⟨[⟨[], some [(S "a", [S "x"])], ()⟩]⟩) ∧
    (⟨[], some [(S "a", [S "x"])], ()⟩ : IndexVersionF Unit) ≠
      mergeF2 ⟨[], some [(S "a", [S "x"])], ()⟩ := by
  refine ⟨by decide, by decide, by decide, by decide⟩

/-- C3 amended: to_krate semantics as implemented.  A supplied expected
revision that differs yields Ok(None), not an error; otherwise the version
entries are consumed in (semver, json) pairs with each json token parsed as
one version and a failed parse surfacing as an error; the parsed versions
are returned exactly as parsed, in order, with no features2 merge and no
dedup at this layer; an empty pair list yields Ok(Some) of a versionless
krate (NoCrateVersions arises only in from_slice, not here), and a trailing
semver token without a json token is the InvalidCrateVersion error. -/
theorem c3_to_krate_semantics {V : Type} (par : List Nat → Option V)
    (e : ValidCacheEntry) :
    (∀ r, r ≠ e.revision → e.to_krate par (some r) = .ok none) ∧
    (∀ pairs : List (List Nat × List Nat),
      splitB 0 e.version_entries = (pairs.map (fun p => [p.1, p.2])).flatten →
      (∀ p ∈ pairs, ∃ v, par p.2 = some v) →
      e.to_krate par none = .ok (some ⟨pairs.filterMap (fun p => par p.2)⟩)) ∧
    (splitB 0 e.version_entries = [] → e.to_krate par none = .ok (some ⟨[]⟩)) ∧
    (∀ t, splitB 0 e.version_entries = [t] →
      e.to_krate par none = .error (.cache .invalidCrateVersion)) ∧
    (∀ s blob rest, splitB 0 e.version_entries = s :: blob :: rest →
      par blob = none → e.to_krate par none = .error .serde) := by
  refine ⟨?_, ?_, ?_, ?_, ?_⟩
  · intro r hr
    simp [ValidCacheEntry.to_krate, hr]
  · intro pairs hsp hp
    simp only [ValidCacheEntry.to_krate]
    rw [hsp, fromCache_pairs par pairs hp]
    rfl
  · intro hsp
    simp [ValidCacheEntry.to_krate, hsp, fromCache, Except.map]
  · intro t hsp
    simp [ValidCacheEntry.to_krate, hsp, fromCache, Except.map]
  · intro s blob rest hsp hb
    simp [ValidCacheEntry.to_krate, hsp, fromCache, hb, Except.map]

/-- Witness for C3: a mismatching expected revision is Ok(None); empty
version entries convert to a versionless krate. -/
theorem c3_witness :
    ValidCacheEntry.to_krate (V := IndexVersionF Unit) (fun _ => none)
        ⟨S "r", []⟩ (some (S "x")) = .ok none ∧
      ValidCacheEntry.to_krate (V := IndexVersionF Unit) (fun _ => none)
        ⟨S "r", []⟩ none = .ok (some ⟨[]⟩) :=
  ⟨(c3_to_krate_semantics (fun _ => none) ⟨S "r", []⟩).1 (S "x") (by decide),
   (c3_to_krate_semantics (fun _ => none) ⟨S "r", []⟩).2.2.1 (by decide)⟩

theorem splitOnce_of_not_mem (l : List Nat) (c : Nat) (h : c ∉ l) :
    splitOnce l c = none := by
  induction l with
  | nil => rfl
  | cons b rest ih =>
    have hb : b ≠ c := fun hc => h (hc ▸ List.mem_cons_self b rest)
    have hr : c ∉ rest := fun hc => h (List.mem_cons_of_mem b hc)
    simp [splitOnce, hb, ih hr]

theorem splitOnce_append (key value : List Nat) (c : Nat) (hk : c ∉ key) :
    splitOnce (key ++ c :: value) c = some (key, value) := by
  induction key with
  | nil => simp [splitOnce]
  | cons b rest ih =>
    have hb : b ≠ c := fun hc => hk (hc ▸ List.mem_cons_self b rest)
    have hr : c ∉ rest := fun hc => hk (List.mem_cons_of_mem b hc)
    simp [splitOnce, hb, ih hr]

/-- C4 counterexample: the claim allows a conditional header only for the
literal revision prefixes ETag-colon-space and Last-Modified-colon-space and
demands that any other prefix yield none.  The code compares the key before
the colon against the http header names case-insensitively, so the lowercase
revision etag-colon-space-v, which carries neither literal prefix, still
produces an If-None-Match header (and indeed the revisions this crate itself
writes are lowercase). -/
theorem c4_counterexample :
    ValidCacheEntry.read
        (3 :: 2 :: 0 :: 0 :: 0 ::
          (S "etag: v" ++ [0] ++ S "s" ++ [0] ++ S "j" ++ [0])) =
      .ok ⟨S "etag: v", S "s" ++ [0] ++ S "j" ++ [0]⟩ ∧
    (makeRemoteRequest (.ok (some (3 :: 2 :: 0 :: 0 :: 0 ::
        (S "etag: v" ++ [0] ++ S "s" ++ [0] ++ S "j" ++ [0]))))).conditional =
      some (.ifNoneMatch, S "v") ∧
    (S "ETag: ").isPrefixOf (S "etag: v") = false ∧
    (S "Last-Modified: ").isPrefixOf (S "etag: v") = false := by
  refine ⟨by decide, by decide, by decide, by decide⟩

/-- C4 amended: conditional request header selection.  A failed cache read,
a missing cache file, an unreadable cache entry, or a revision without a
colon all leave the request without a conditional header, never an error.
When the entry reads successfully and its revision splits as key, colon,
value with the key compared ASCII-case-insensitively: an etag key yields
If-None-Match and a last-modified key yields If-Modified-Since, each
carrying the whitespace-trimmed value after the colon provided it is a valid
header value, and any other key, or a value that is not a valid header
value, yields no conditional header. -/
theorem c4_conditional_header_selection :
    (∀ er, (makeRemoteRequest (.error er)).conditional = none) ∧
    ((makeRemoteRequest (.ok none)).conditional = none) ∧
    (∀ c err, ValidCacheEntry.read c = .error err →
      (makeRemoteRequest (.ok (some c))).conditional = none) ∧
    (∀ c valid, ValidCacheEntry.read c = .ok valid → 58 ∉ valid.revision →
      (makeRemoteRequest (.ok (some c))).conditional = none) ∧
    (∀ c valid key value, ValidCacheEntry.read c = .ok valid →
      valid.revision = key ++ 58 :: value → 58 ∉ key →
      (headerValueOk (trimAscii value) = true →
        (lowerAscii key = S "etag" →
          (makeRemoteRequest (.ok (some c))).conditional =
            some (.ifNoneMatch, trimAscii value)) ∧
        (lowerAscii key = S "last-modified" →
          (makeRemoteRequest (.ok (some c))).conditional =
            some (.ifModifiedSince, trimAscii value)) ∧
        (lowerAscii key ≠ S "etag" → lowerAscii key ≠ S "last-modified" →
          (makeRemoteRequest (.ok (some c))).conditional = none)) ∧
      (headerValueOk (trimAscii value) = false →
        (makeRemoteRequest (.ok (some c))).conditional = none)) := by
  refine ⟨fun er => rfl, rfl, ?_, ?_, ?_⟩
  · intro c err hread
    simp [makeRemoteRequest, setCacheVersion, hread]
  · intro c valid hread hmem
    simp [makeRemoteRequest, setCacheVersion, hread,
      splitOnce_of_not_mem valid.revision 58 hmem]
  · intro c valid key value hread hrev hkey
    obtain ⟨rev, ve⟩ := valid
    simp only at hrev
    subst hrev
    constructor
    · intro hval
      refine ⟨?_, ?_, ?_⟩
      · intro hk
        simp [makeRemoteRequest, setCacheVersion, hread,
          splitOnce_append key value 58 hkey, hval, hk]
      · intro hk
        by_cases he : lowerAscii key = S "etag"
        · rw [he] at hk
          exact absurd hk.symm (by decide)
        · simp [makeRemoteRequest, setCacheVersion, hread,
            splitOnce_append key value 58 hkey, hval, he, hk]
          decide
      · intro h1 h2
        simp [makeRemoteRequest, setCacheVersion, hread,
          splitOnce_append key value 58 hkey, hval, h1, h2]
    · intro hval
      simp [makeRemoteRequest, setCacheVersion, hread,
        splitOnce_append key value 58 hkey, hval]

/-- Witness for C4: the capitalized revision ETag-colon-space-v produces an
If-None-Match header with the trimmed value v. -/
theorem c4_witness :
    (makeRemoteRequest (.ok (some (3 :: 2 :: 0 :: 0 :: 0 ::
        (S "ETag: v" ++ [0] ++ S "s" ++ [0] ++ S "j" ++ [0]))))).conditional =
      some (.ifNoneMatch, trimAscii (S " v")) :=
  ((c4_conditional_header_selection.2.2.2.2
      (3 :: 2 :: 0 :: 0 :: 0 :: (S "ETag: v" ++ [0] ++ S "s" ++ [0] ++ S "j" ++ [0]))
      ⟨S "ETag: v", S "s" ++ [0] ++ S "j" ++ [0]⟩ (S "ETag") (S " v")
      (by decide) (by decide) (by decide)).1 (by decide)).1 (by decide)

/-- C5 counterexample: the claim states the written revision is
ETag-colon-space-value, capitalized, with Last-Modified likewise.  The code
formats the revision with the http header-name constants, which display
lowercase: the cache entry written on a 200 with an ETag header carries the
revision etag-colon-space-value, and with only a Last-Modified header
last-modified-colon-space-value; moreover an ETag header whose bytes are
not visible ASCII falls back to the literal Unknown despite the header being
present. -/
theorem c5_counterexample :
    (parseRemoteResponse (α := Unit) (fun _ => some ⟨[], none, ()⟩) none
        ⟨200, some (S "abc"), none, S "j"⟩ true (.ok ())).2 =
      some (S "etag: abc") ∧
    S "etag: abc" ≠ S "ETag: abc" ∧
    (parseRemoteResponse (α := Unit) (fun _ => some ⟨[], none, ()⟩) none
        ⟨200, none, some (S "lm"), S "j"⟩ true (.ok ())).2 =
      some (S "last-modified: lm") ∧
    S "last-modified: lm" ≠ S "Last-Modified: lm" ∧
    (parseRemoteResponse (α := Unit) (fun _ => some ⟨[], none, ()⟩) none
        ⟨200, some [200], none, S "j"⟩ true (.ok ())).2 = some (S "Unknown") := by
  refine ⟨by decide, by decide, by decide, by decide, by decide⟩

/-- C5 amended: response status mapping.  Status 200 parses the body as JSON
lines and returns the krate, writing (when requested) a cache entry whose
revision is etag-colon-space-value when the response has a visible-ASCII
ETag header, else last-modified-colon-space-value from a visible-ASCII
Last-Modified header, else the literal Unknown; 304 returns whatever the
local cache yields; 401 fails with StatusCode 401; 404, 410 and 451 return
Ok(None); every other status fails with its StatusCode; and the outcome of
the cache write never influences the returned value. -/
theorem c5_response_status_mapping {α : Type}
    (par : List Nat → Option (IndexVersionF α)) (cacheFile : Option (List Nat))
    (resp : HttpResponse) (w : Bool) (o : Except Unit Unit) :
    (resp.status = 200 → ∀ k, fromSlice par resp.body = .ok k →
      (parseRemoteResponse par cacheFile resp w o).1 = .ok (some k) ∧
      (parseRemoteResponse par cacheFile resp w o).2 =
        (if w = true then some (responseRevision resp) else none)) ∧
    (resp.status = 200 → ∀ e, fromSlice par resp.body = .error e →
      (parseRemoteResponse par cacheFile resp w o).1 = .error e) ∧
    (resp.status = 304 →
      (parseRemoteResponse par cacheFile resp w o).1 = cachedKrate par cacheFile none) ∧
    (resp.status = 401 →
      (parseRemoteResponse par cacheFile resp w o).1 = .error (.statusCode 401)) ∧
    (resp.status = 404 ∨ resp.status = 410 ∨ resp.status = 451 →
      (parseRemoteResponse par cacheFile resp w o).1 = .ok none) ∧
    (resp.status ≠ 200 → resp.status ≠ 304 → resp.status ≠ 401 →
      resp.status ≠ 404 → resp.status ≠ 410 → resp.status ≠ 451 →
      (parseRemoteResponse par cacheFile resp w o).1 =
        .error (.statusCode resp.status)) ∧
    (∀ et, resp.etag = some et → et.all (fun b => 32 ≤ b ∧ b < 127) = true →
      responseRevision resp = S "etag" ++ S ": " ++ et) ∧
    (resp.etag = none → ∀ lm, resp.lastModified = some lm →
      lm.all (fun b => 32 ≤ b ∧ b < 127) = true →
      responseRevision resp = S "last-modified" ++ S ": " ++ lm) ∧
    (resp.etag = none → resp.lastModified = none →
      responseRevision resp = S "Unknown") ∧
    (∀ o2, parseRemoteResponse par cacheFile resp w o =
      parseRemoteResponse par cacheFile resp w o2) := by
  obtain ⟨st, etag, lastModified, body⟩ := resp
  refine ⟨?_, ?_, ?_, ?_, ?_, ?_, ?_, ?_, ?_, ?_⟩
  · rintro rfl k hk
    cases w <;> cases o <;>
      simp [parseRemoteResponse, hk, responseRevision]
  · rintro rfl e he
    simp [parseRemoteResponse, he]
  · rintro rfl
    simp [parseRemoteResponse]
  · rintro rfl
    simp [parseRemoteResponse]
  · rintro (rfl | rfl | rfl) <;> simp [parseRemoteResponse]
  · intro h200 h304 h401 h404 h410 h451
    simp [parseRemoteResponse, h200, h304, h401, h404, h410, h451]
  · rintro et rfl hvis
    have hvis2 : ∀ x ∈ et, 32 ≤ x ∧ x < 127 := fun x hx =>
      of_decide_eq_true (List.all_eq_true.mp hvis x hx)
    simp [responseRevision, headerToStr]
    rw [if_pos hvis2]
    rfl
  · rintro rfl lm rfl hvis
    have hvis2 : ∀ x ∈ lm, 32 ≤ x ∧ x < 127 := fun x hx =>
      of_decide_eq_true (List.all_eq_true.mp hvis x hx)
    simp [responseRevision, headerToStr]
    rw [if_pos hvis2]
    rfl
  · rintro rfl rfl
    simp [responseRevision]
  · intro o2
    cases o <;> cases o2 <;> rfl

/-- Witness for C5: a 200 response with one JSON line and no cache write. -/
theorem c5_witness :
    (parseRemoteResponse (α := Unit) (fun _ => some ⟨[], none, ()⟩) none
        ⟨200, none, none, S "j"⟩ false (.ok ())).1 =
      .ok (some ⟨[⟨[], none, ()⟩]⟩) ∧
    (parseRemoteResponse (α := Unit) (fun _ => some ⟨[], none, ()⟩) none
        ⟨200, none, none, S "j"⟩ false (.ok ())).2 =
      (if false = true then some (responseRevision ⟨200, none, none, S "j"⟩)
       else none) :=
  (c5_response_status_mapping (fun _ => some ⟨[], none, ()⟩) none
      ⟨200, none, none, S "j"⟩ false (.ok ())).1 rfl
    ⟨[⟨[], none, ()⟩]⟩ (by decide)

/-- C6: granular git cache validity.  For a readable and parseable cache
entry, RemoteGitIndex::cached_krate returns the parsed krate exactly when
the entry revision equals the stored head-commit hex or the hex-encoded blob
id of the crate path in the head tree; when neither matches, or the blob
does not exist, it returns Ok(None) rather than an error, so a fetch that
moves HEAD without changing the blob leaves the entry valid.  A missing
cache file is also Ok(None). -/
theorem c6_git_cache_validity {V : Type} (par : List Nat → Option V)
    (contents : List Nat) (valid : ValidCacheEntry) (k : IndexKrate V)
    (headCommit : Option (List Nat)) (blob : Option (List Nat))
    (hread : ValidCacheEntry.read contents = .ok valid)
    (hto : valid.to_krate par none = .ok (some k)) :
    (gitCachedKrate par (some contents) headCommit blob = .ok (some k) ↔
      headCommit = some valid.revision ∨
        ∃ sha1, blob = some sha1 ∧ encodeHex sha1 = valid.revision) ∧
    (headCommit ≠ some valid.revision →
      (∀ sha1, blob = some sha1 → encodeHex sha1 ≠ valid.revision) →
      gitCachedKrate par (some contents) headCommit blob = .ok none) ∧
    gitCachedKrate par none headCommit blob = .ok none := by
  refine ⟨?_, ?_, rfl⟩
  · by_cases hh : headCommit = some valid.revision
    · simp only [gitCachedKrate, hread, hh]
      simp [hto]
    · have hne : some valid.revision ≠ headCommit := fun hc => hh hc.symm
      simp only [gitCachedKrate, hread]
      rw [if_pos hne]
      cases blob with
      | none => simp [hh]
      | some sha1 =>
        dsimp only
        by_cases hb : encodeHex sha1 = valid.revision
        · have : ¬valid.revision ≠ encodeHex sha1 := fun hc => hc hb.symm
          rw [if_neg this]
          simp [hto, hh, hb]
        · have : valid.revision ≠ encodeHex sha1 := fun hc => hb hc.symm
          rw [if_pos this]
          constructor
          · intro hc
            simp at hc
          · rintro (hc | ⟨sha2, hs, he⟩)
            · exact absurd hc hh
            · injection hs with hs
              exact absurd (hs ▸ he) hb
  · intro hh hblob
    have hne : some valid.revision ≠ headCommit := fun hc => hh hc.symm
    simp only [gitCachedKrate, hread]
    rw [if_pos hne]
    cases blob with
    | none => rfl
    | some sha1 =>
      dsimp only
      have : valid.revision ≠ encodeHex sha1 :=
        fun hc => hblob sha1 rfl hc.symm
      rw [if_pos this]

/-- Witness for C6: a cache entry with revision aa, matched by the head
commit hex aa, yields the parsed one-version krate. -/
theorem c6_witness :
    gitCachedKrate (V := Unit) (fun _ => some ())
        (some (3 :: 2 :: 0 :: 0 :: 0 ::
          (S "aa" ++ [0] ++ S "s" ++ [0] ++ S "j" ++ [0])))
        (some (S "aa")) none = .ok (some ⟨[()]⟩) :=
  ((c6_git_cache_validity (fun _ => some ())
      (3 :: 2 :: 0 :: 0 :: 0 :: (S "aa" ++ [0] ++ S "s" ++ [0] ++ S "j" ++ [0]))
      ⟨S "aa", S "s" ++ [0] ++ S "j" ++ [0]⟩ ⟨[()]⟩ (some (S "aa")) none
      (by decide) (by decide)).1).mpr (Or.inl rfl)

set_option maxRecDepth 1000000 in
/-- C9 counterexample: the claim says registry-modified urls are hashed
after stripping the query string and fragment.  On the code, only git+ urls
are canonicalized; a registry+ url is hashed verbatim after removing the
nine-byte modifier, so the url with query and fragment attached hashes to a
directory name different from the bare .git url, and the canonical url
returned keeps the query and fragment too. -/
theorem c9_counterexample :
    urlToLocalDir (S "registry+https://example.com/a.git?a=1#f") =
      .ok ⟨S "example.com-f432f54f7faa9ec0",
           S "https://example.com/a.git?a=1#f"⟩ ∧
    urlToLocalDir (S "https://example.com/a.git") =
      .ok ⟨S "example.com-a3f3faa2ee25fa19", S "https://example.com/a.git"⟩ ∧
    S "example.com-f432f54f7faa9ec0" ≠ S "example.com-a3f3faa2ee25fa19" := by
  exact ⟨by rfl, by rfl, by decide⟩

theorem findSeq_registry_shift (u : List Nat) (i : Nat)
    (h : findSeq u [58, 47, 47] = some i) :
    findSeq ([114, 101, 103, 105, 115, 116, 114, 121, 43] ++ u) [58, 47, 47] =
      some (i + 9) := by
  simp [findSeq, List.isPrefixOf, h]

/-- C9 amended: for every url whose scheme part carries no modifier, the
registry+ form hashes to the same directory name as the bare url because
the nine-byte modifier is stripped and nothing else changes: query string,
fragment and any .git suffix are all retained in the hash input and in the
canonical url returned, which is the input itself. -/
theorem c9_registry_verbatim (u : List Nat) (i : Nat)
    (hfind : findSeq u (S "://") = some i)
    (hplus : 43 ∉ u.take i) :
    urlToLocalDir (S "registry+" ++ u) = urlToLocalDir u ∧
      urlToLocalDir u = .ok (registryDir u i 2) ∧
      (registryDir u i 2).canonical = u := by
  have hP : S "://" = [58, 47, 47] := by decide
  have hR : S "registry+" = [114, 101, 103, 105, 115, 116, 114, 121, 43] := by decide
  have h1 : urlToLocalDir u = .ok (registryDir u i 2) := by
    simp [urlToLocalDir, hfind, splitOnce_of_not_mem (u.take i) 43 hplus]
  refine ⟨?_, h1, rfl⟩
  rw [h1]
  have h2 : findSeq (S "registry+" ++ u) (S "://") = some (i + 9) := by
    rw [hP, hR]
    exact findSeq_registry_shift u i (by rw [hP] at hfind; exact hfind)
  have htake : (S "registry+" ++ u).take (i + 9) = S "registry+" ++ u.take i := by
    have h9 : (S "registry+").length = 9 := by decide
    rw [Nat.add_comm i 9, ← h9, List.take_append]
  have hsp : splitOnce (S "registry+" ++ u.take i) 43 =
      some (S "registry", u.take i) := by
    have hr2 : S "registry+" ++ u.take i = S "registry" ++ 43 :: u.take i := by
      have : S "registry+" = S "registry" ++ [43] := by decide
      rw [this]
      simp
    rw [hr2]
    exact splitOnce_append (S "registry") (u.take i) 43 (by decide)
  have hdrop : (S "registry+" ++ u).drop 9 = u := by
    have h9 : (S "registry+").length = 9 := by decide
    rw [← h9, List.drop_left]
  simp only [urlToLocalDir, h2, htake, hsp]
  have hne : ¬S "registry" = S "sparse" := by decide
  simp [hne, hdrop]

/-- Witness for C9: the example url with query and fragment. -/
theorem c9_witness :
    urlToLocalDir (S "registry+" ++ S "https://example.com/a.git?a=1#f") =
        urlToLocalDir (S "https://example.com/a.git?a=1#f") ∧
      urlToLocalDir (S "https://example.com/a.git?a=1#f") =
        .ok (registryDir (S "https://example.com/a.git?a=1#f") 5 2) ∧
      (registryDir (S "https://example.com/a.git?a=1#f") 5 2).canonical =
        S "https://example.com/a.git?a=1#f" :=
  c9_registry_verbatim (S "https://example.com/a.git?a=1#f") 5
    (by decide) (by decide)

end TameIndex
